import Mathlib

/-!
Verification of the simplex game solver in src/simplex.c.

The C program works on `double` values; here they are embedded as exact
rationals.  Wherever the C code compares against the sentinel `DBL_MAX`
(the largest finite double), the model uses the same constant as an exact
rational, so that the comparisons of the source are reproduced literally.

Division in `ℚ` returns 0 on a zero divisor.  This agrees with the
selections the C code makes: when `matrix[row][pivot_col] == 0` the C
quotient is `±inf` or `NaN`, and each of those is rejected by the guard
`value > 0 && value < min_value` (with `min_value <= DBL_MAX`), exactly as
the rational value 0 is rejected by `0 < value`.
-/

namespace Simplex

/-- Largest finite IEEE-754 double, exactly: `(2 - 2^-52) * 2^1023`, that is
`2 ^ 1024 - 2 ^ 971` (theorem `DBL_MAX_eq` below), written as a numeral so
that the kernel can evaluate comparisons against it directly. -/
def DBL_MAX : ℚ := 179769313486231570814527423731704356798070567525844996598917476803157260780028538760589558632766878171540458953514382464234321326889464182768467546703537516986049910576551282076245490090389328944075868508455133942304583236903222948165808559332123348274797826204144723168738177180919299881250404026184124858368

/-- A C cast from `double` to `int`: truncation toward zero. -/
def truncToInt (q : ℚ) : ℤ := if q < 0 then -⌊-q⌋ else ⌊q⌋

/-- `struct Tableau` of simplex.c.  `m` is the matrix (reads outside the
`rows × cols` range never happen in the source); `k` is the shift constant,
an `int` field in the C struct. -/
structure Tableau where
  m : ℕ → ℕ → ℚ
  s_size : ℕ
  x_size : ℕ
  rows : ℕ
  cols : ℕ
  k : ℤ

/-- `create_tableau`: fresh zero-filled tableau, `rows = s_size + 1`,
`cols = x_size + s_size + 1`, `k = 0`. -/
def create_tableau (s_size x_size : ℕ) : Tableau :=
  { m := fun _ _ => 0
    s_size := s_size
    x_size := x_size
    rows := s_size + 1
    cols := x_size + s_size + 1
    k := 0 }

/-- The minimum-payoff scan of `get_init_tableau`: `min` starts at
`DBL_MAX` and each entry strictly smaller than the running value
replaces it (row-major double loop). -/
def min_payoff (payoff : ℕ → ℕ → ℚ) (m n : ℕ) : ℚ :=
  (List.range m).foldl
    (fun acc row =>
      (List.range n).foldl
        (fun acc2 col => if payoff row col < acc2 then payoff row col else acc2) acc)
    DBL_MAX

/-- The local `double k` of `get_init_tableau`: `(min < 1) ? 1 - min : 0`. -/
def shift_k (payoff : ℕ → ℕ → ℚ) (m n : ℕ) : ℚ :=
  if min_payoff payoff m n < 1 then 1 - min_payoff payoff m n else 0

/-- `get_init_tableau`: build the initial tableau from the payoff matrix.
The populated entries follow the C loops literally: decision columns hold
`payoff + k` on payoff rows and `-1` on the objective row; the middle block
holds the identity `(double)(row == col - n)` on payoff rows and `0` on the
objective row; the last column holds `(double)(row < m)`, that is `1` on
payoff rows and `0` on the objective row.  The struct field `k` receives
the `double` shift through the C `int` truncation. -/
def get_init_tableau (payoff : ℕ → ℕ → ℚ) (m n : ℕ) : Tableau :=
  let t := create_tableau m n
  let k : ℚ := shift_k payoff m n
  { t with
    k := truncToInt k
    m := fun row col =>
      if row < t.rows ∧ col < t.cols then
        if col < n then (if row < m then payoff row col + k else -1)
        else if col < n + m then (if row < m then (if row = col - n then 1 else 0) else 0)
        else (if row < m then 1 else 0)
      else 0 }

/-- `struct PivotResult`.  On the “no column” exit the C code never writes
`pivot_row` (the field keeps its `malloc` garbage and is never read); the
model fills in 0 there, and no statement depends on that value. -/
structure PivotResult where
  success : Bool
  tableau : Tableau
  pivot_row : ℤ
  pivot_col : ℤ

/-- The pivot-column scan of `pivot_tableau` after `N` loop iterations:
`min_value` starts at 0, `pivot_col` at `-1`, and a strictly smaller
objective-row entry replaces the pair. -/
def find_pivot_col_upto (t : Tableau) (N : ℕ) : ℚ × ℤ :=
  (List.range N).foldl
    (fun acc col =>
      if t.m (t.rows - 1) col < acc.1 then (t.m (t.rows - 1) col, (col : ℤ)) else acc)
    (0, -1)

/-- The full pivot-column scan (`for col < tableau->cols`). -/
def find_pivot_col (t : Tableau) : ℚ × ℤ :=
  find_pivot_col_upto t t.cols

/-- The pivot-row scan of `pivot_tableau` after `N` loop iterations:
`min_value` starts at `DBL_MAX`, `pivot_row` at `-1`, and the quotient
`matrix[row][cols-1] / matrix[row][pivot_col]` replaces the pair when it
is strictly positive and strictly below the running minimum. -/
def find_pivot_row_upto (t : Tableau) (pivot_col : ℕ) (N : ℕ) : ℚ × ℤ :=
  (List.range N).foldl
    (fun acc row =>
      let value := t.m row (t.cols - 1) / t.m row pivot_col
      if 0 < value ∧ value < acc.1 then (value, (row : ℤ)) else acc)
    (DBL_MAX, -1)

/-- The full pivot-row scan (`for row < tableau->rows`). -/
def find_pivot_row (t : Tableau) (pivot_col : ℕ) : ℚ × ℤ :=
  find_pivot_row_upto t pivot_col t.rows

/-- `pivot_tableau`: select the pivot column, then the pivot row, then
compute the successor tableau into a fresh one.  The new pivot row is the
old one divided by the pivot value, and every other row subtracts
`matrix[row][pivot_col]` times the already-updated pivot row, exactly as
the two C loops do. -/
def pivot_tableau (t : Tableau) : PivotResult :=
  let fresh : Tableau := { create_tableau t.s_size t.x_size with k := t.k }
  let pivot_col : ℤ := (find_pivot_col t).2
  if pivot_col < 0 then
    { success := false, tableau := fresh, pivot_row := 0, pivot_col := pivot_col }
  else
    let pivot_row : ℤ := (find_pivot_row t pivot_col.toNat).2
    if pivot_row < 0 then
      { success := false, tableau := fresh, pivot_row := pivot_row, pivot_col := pivot_col }
    else
      let pivot_value := t.m pivot_row.toNat pivot_col.toNat
      let new_pivot_row : ℕ → ℚ := fun col => t.m pivot_row.toNat col / pivot_value
      { success := true
        tableau :=
          { fresh with
            m := fun row col =>
              if row < t.rows ∧ col < t.cols then
                if row = pivot_row.toNat then new_pivot_row col
                else t.m row col - t.m row pivot_col.toNat * new_pivot_row col
              else 0 }
        pivot_row := pivot_row
        pivot_col := pivot_col }

/-- The tableau reached after `j` consecutive successful pivots, `none`
when one of the first `j` pivots fails. -/
def pivotN : Tableau → ℕ → Option Tableau
  | t, 0 => some t
  | t, j + 1 =>
    if (pivot_tableau t).success then pivotN (pivot_tableau t).tableau j else none

/-- What the `while (true)` loop of `main` has when it leaves: the final
tableau, the `order` array and the pivot count. -/
structure SolveResult where
  tableau : Tableau
  order : List ℤ
  pivot_count : ℕ

/-- The `while (true)` loop of `main`, with explicit fuel standing for the
unbounded iteration of the C loop: on a successful pivot record the pivot
row in `order` when `pivot_count < n` (`n` is the length of `order`) and
continue; on a failed pivot stop with the current state. -/
def run_pivots : ℕ → Tableau → List ℤ → ℕ → Option SolveResult
  | 0, _, _, _ => none
  | fuel + 1, t, ord, cnt =>
    let result := pivot_tableau t
    if result.success then
      run_pivots fuel result.tableau
        (if cnt < ord.length then ord.set cnt result.pivot_row else ord) (cnt + 1)
    else
      some ⟨t, ord, cnt⟩

/-- The results `main` computes after the loop. -/
structure GameSolution where
  value : ℚ
  p1_strategy : List ℚ
  p2_strategy : List ℚ
  deriving DecidableEq

/-- The extraction block of `main` (lines 463-477): the game value and
both strategies read from the final tableau and the recorded order. -/
def extract_solution (t : Tableau) (order : List ℤ) (m n : ℕ) : GameSolution :=
  let v := t.m (t.rows - 1) (t.cols - 1)
  { value := 1 / v - (t.k : ℚ)
    p1_strategy := (List.range m).map (fun index => t.m (t.rows - 1) (t.x_size + index) / v)
    p2_strategy := (List.range n).map (fun index =>
      let x_index := order.getD index (-1)
      if 0 ≤ x_index then t.m x_index.toNat (t.cols - 1) / v else 0) }

/-- The whole solve of `main` on a payoff matrix: build the initial
tableau, run the loop (`order` starts as `n` copies of `-1`, from the
`memset`), extract the solution. -/
def simplex_main (payoff : ℕ → ℕ → ℚ) (m n : ℕ) (fuel : ℕ) : Option GameSolution :=
  let t0 := get_init_tableau payoff m n
  match run_pivots fuel t0 (List.replicate n (-1)) 0 with
  | none => none
  | some s => some (extract_solution s.tableau s.order m n)

/-- The 1 × 1 payoff matrix `[[5]]` (spec §8, degenerate single-cell game). -/
def payoff5 : ℕ → ℕ → ℚ := fun _ _ => 5

/-- The matching-pennies payoff matrix `[[1, -1], [-1, 1]]` (spec §8). -/
def payoff_pennies : ℕ → ℕ → ℚ := fun row col => if row = col then 1 else -1

/-- The dominant-strategy payoff matrix `[[3, 0], [0, 0]]` (spec §8). -/
def payoff_dominant : ℕ → ℕ → ℚ := fun row col => if row = 0 ∧ col = 0 then 3 else 0

/-- A 1 × 1 payoff matrix whose only entry is the non-integer double 1/2. -/
def payoff_frac : ℕ → ℕ → ℚ := fun _ _ => 1 / 2

/-- A well-formed 2 × 3 tableau (`s_size = x_size = 1`) on which the
pivot-column scan succeeds (objective row holds -1) but no row has a
quotient in `(0, DBL_MAX)`: both rows give `1 / (-1) < 0`. -/
def tab_no_row : Tableau :=
  { m := fun _ col => if col = 0 then -1 else if col = 2 then 1 else 0
    s_size := 1
    x_size := 1
    rows := 2
    cols := 3
    k := 0 }

/-- A well-formed 2 × 3 tableau whose payoff row has the strictly positive
quotient `DBL_MAX / 1 = DBL_MAX` for the selected column 0. -/
def tab_huge : Tableau :=
  { m := fun row col =>
      if row = 0 then (if col = 0 then 1 else if col = 2 then DBL_MAX else 0)
      else (if col = 0 then -1 else if col = 2 then 1 else 0)
    s_size := 1
    x_size := 1
    rows := 2
    cols := 3
    k := 0 }

theorem DBL_MAX_eq : DBL_MAX = 2 ^ 1024 - 2 ^ 971 := by
  norm_num [DBL_MAX]

/-! ### List helpers -/

theorem getD_set_self (l : List ℤ) (i : ℕ) (a d : ℤ) (h : i < l.length) :
    (l.set i a).getD i d = a := by
  rw [List.getD_eq_getD_get?, List.get?_set_eq_of_lt a h]
  rfl

theorem getD_set_ne (l : List ℤ) (i j : ℕ) (a d : ℤ) (h : i ≠ j) :
    (l.set i a).getD j d = l.getD j d := by
  rw [List.getD_eq_getD_get?, List.getD_eq_getD_get?, List.get?_set_ne a _ h]

theorem getD_replicate_lt (n i : ℕ) (a d : ℤ) (h : i < n) :
    (List.replicate n a).getD i d = a := by
  rw [List.getD_eq_getElem _ _ (by simpa using h)]
  simp

theorem getD_map_range {α : Type} (f : ℕ → α) (n i : ℕ) (d : α) (h : i < n) :
    ((List.range n).map f).getD i d = f i := by
  rw [List.getD_eq_getElem _ _ (by simpa using h)]
  simp

/-! ### The minimum-payoff scan -/

theorem fold_min_le_init (g : ℕ → ℚ) (n : ℕ) (acc : ℚ) :
    (List.range n).foldl (fun a j => if g j < a then g j else a) acc ≤ acc := by
  induction n generalizing acc with
  | zero => simp
  | succ n ih =>
    rw [List.range_succ, List.foldl_append, List.foldl_cons, List.foldl_nil]
    split
    · exact le_trans (le_of_lt (by assumption)) (ih acc)
    · exact ih acc

theorem fold_min_le (g : ℕ → ℚ) (n : ℕ) (acc : ℚ) :
    ∀ j < n, (List.range n).foldl (fun a j => if g j < a then g j else a) acc ≤ g j := by
  induction n generalizing acc with
  | zero => exact fun j hj => absurd hj (Nat.not_lt_zero j)
  | succ n ih =>
    intro j hj
    rw [List.range_succ, List.foldl_append, List.foldl_cons, List.foldl_nil]
    rcases Nat.lt_succ_iff_lt_or_eq.mp hj with hj' | rfl
    · split
      · exact le_trans (le_of_lt (by assumption)) (ih acc j hj')
      · exact ih acc j hj'
    · split
      · exact le_refl _
      · exact le_of_not_lt (by assumption)

theorem fold_min_cases (g : ℕ → ℚ) (n : ℕ) (acc : ℚ) :
    (List.range n).foldl (fun a j => if g j < a then g j else a) acc = acc ∨
      ∃ j < n, (List.range n).foldl (fun a j => if g j < a then g j else a) acc = g j := by
  induction n generalizing acc with
  | zero => left; rfl
  | succ n ih =>
    rw [List.range_succ, List.foldl_append, List.foldl_cons, List.foldl_nil]
    split
    · right; exact ⟨n, Nat.lt_succ_self n, rfl⟩
    · rcases ih acc with h' | ⟨j, hj, h'⟩
      · left; exact h'
      · right; exact ⟨j, Nat.lt_succ_of_lt hj, h'⟩

theorem min_fold_outer_le_init (payoff : ℕ → ℕ → ℚ) (n : ℕ) :
    ∀ (m : ℕ) (acc : ℚ),
      (List.range m).foldl
        (fun acc row => (List.range n).foldl
          (fun acc2 col => if payoff row col < acc2 then payoff row col else acc2) acc)
        acc ≤ acc := by
  intro m
  induction m with
  | zero => intro acc; simp
  | succ m ih =>
    intro acc
    rw [List.range_succ, List.foldl_append, List.foldl_cons, List.foldl_nil]
    exact le_trans (fold_min_le_init (payoff m) n _) (ih acc)

theorem min_fold_outer_le (payoff : ℕ → ℕ → ℚ) (n : ℕ) :
    ∀ (m : ℕ) (acc : ℚ) (r c : ℕ), r < m → c < n →
      (List.range m).foldl
        (fun acc row => (List.range n).foldl
          (fun acc2 col => if payoff row col < acc2 then payoff row col else acc2) acc)
        acc ≤ payoff r c := by
  intro m
  induction m with
  | zero => exact fun acc r c hr _ => absurd hr (Nat.not_lt_zero r)
  | succ m ih =>
    intro acc r c hr hc
    rw [List.range_succ, List.foldl_append, List.foldl_cons, List.foldl_nil]
    rcases Nat.lt_succ_iff_lt_or_eq.mp hr with hr' | rfl
    · exact le_trans (fold_min_le_init (payoff m) n _) (ih acc r c hr' hc)
    · exact fold_min_le (payoff r) n _ c hc

theorem min_fold_outer_cases (payoff : ℕ → ℕ → ℚ) (n : ℕ) :
    ∀ (m : ℕ) (acc : ℚ),
      (List.range m).foldl
        (fun acc row => (List.range n).foldl
          (fun acc2 col => if payoff row col < acc2 then payoff row col else acc2) acc)
        acc = acc ∨
      ∃ r < m, ∃ c < n,
        (List.range m).foldl
          (fun acc row => (List.range n).foldl
            (fun acc2 col => if payoff row col < acc2 then payoff row col else acc2) acc)
          acc = payoff r c := by
  intro m
  induction m with
  | zero => intro acc; left; rfl
  | succ m ih =>
    intro acc
    rw [List.range_succ, List.foldl_append, List.foldl_cons, List.foldl_nil]
    rcases fold_min_cases (payoff m) n
        ((List.range m).foldl (fun acc row => (List.range n).foldl
          (fun acc2 col => if payoff row col < acc2 then payoff row col else acc2) acc) acc)
      with h | ⟨c, hc, h⟩
    · rw [h]
      rcases ih acc with h' | ⟨r, hr, c, hc, h'⟩
      · left; exact h'
      · right; exact ⟨r, Nat.lt_succ_of_lt hr, c, hc, h'⟩
    · right; exact ⟨m, Nat.lt_succ_self m, c, hc, h⟩

theorem min_payoff_le (payoff : ℕ → ℕ → ℚ) (m n r c : ℕ) (hr : r < m) (hc : c < n) :
    min_payoff payoff m n ≤ payoff r c :=
  min_fold_outer_le payoff n m DBL_MAX r c hr hc

theorem min_payoff_attained (payoff : ℕ → ℕ → ℚ) (m n : ℕ) (hm : 1 ≤ m) (hn : 1 ≤ n)
    (hbound : ∀ r < m, ∀ c < n, payoff r c ≤ DBL_MAX) :
    ∃ r < m, ∃ c < n, min_payoff payoff m n = payoff r c := by
  rcases min_fold_outer_cases payoff n m DBL_MAX with h | h
  · refine ⟨0, hm, 0, hn, ?_⟩
    have h1 : min_payoff payoff m n ≤ payoff 0 0 := min_payoff_le payoff m n 0 0 hm hn
    have h2 : payoff 0 0 ≤ DBL_MAX := hbound 0 hm 0 hn
    have h3 : min_payoff payoff m n = DBL_MAX := h
    exact le_antisymm h1 (h3 ▸ h2)
  · exact h

theorem shift_k_nonneg (payoff : ℕ → ℕ → ℚ) (m n : ℕ) : 0 ≤ shift_k payoff m n := by
  unfold shift_k
  split
  · linarith [lt_of_lt_of_le (by assumption : min_payoff payoff m n < 1) (le_refl _)]
  · exact le_refl 0

theorem shift_k_eq_max (payoff : ℕ → ℕ → ℚ) (m n : ℕ) :
    shift_k payoff m n = max 0 (1 - min_payoff payoff m n) := by
  unfold shift_k
  rcases lt_or_le (min_payoff payoff m n) 1 with h | h
  · rw [if_pos h, max_eq_right (by linarith)]
  · rw [if_neg (not_lt.mpr h), max_eq_left (by linarith)]

theorem entry_plus_shift_ge_one (payoff : ℕ → ℕ → ℚ) (m n r c : ℕ)
    (hr : r < m) (hc : c < n) : 1 ≤ payoff r c + shift_k payoff m n := by
  have h := min_payoff_le payoff m n r c hr hc
  unfold shift_k
  split
  · linarith
  · have : (1 : ℚ) ≤ min_payoff payoff m n := le_of_not_lt (by assumption)
    linarith

/-! ### Layout of the initial tableau -/

theorem init_fields (payoff : ℕ → ℕ → ℚ) (m n : ℕ) :
    (get_init_tableau payoff m n).rows = m + 1 ∧
    (get_init_tableau payoff m n).cols = n + m + 1 ∧
    (get_init_tableau payoff m n).s_size = m ∧
    (get_init_tableau payoff m n).x_size = n ∧
    (get_init_tableau payoff m n).k = truncToInt (shift_k payoff m n) :=
  ⟨rfl, rfl, rfl, rfl, rfl⟩

theorem init_m_entry (payoff : ℕ → ℕ → ℚ) (m n row col : ℕ)
    (hrow : row < m + 1) (hcol : col < n + m + 1) :
    (get_init_tableau payoff m n).m row col =
      if col < n then (if row < m then payoff row col + shift_k payoff m n else -1)
      else if col < n + m then (if row < m then (if row = col - n then 1 else 0) else 0)
      else (if row < m then 1 else 0) := by
  unfold get_init_tableau create_tableau
  simp only
  rw [if_pos ⟨hrow, hcol⟩]

theorem init_m_payoff (payoff : ℕ → ℕ → ℚ) (m n r c : ℕ) (hr : r < m) (hc : c < n) :
    (get_init_tableau payoff m n).m r c = payoff r c + shift_k payoff m n := by
  rw [init_m_entry payoff m n r c (by omega) (by omega), if_pos hc, if_pos hr]

theorem init_m_slack (payoff : ℕ → ℕ → ℚ) (m n r i : ℕ) (hr : r < m) (hi : i < m) :
    (get_init_tableau payoff m n).m r (n + i) = if r = i then 1 else 0 := by
  rw [init_m_entry payoff m n r (n + i) (by omega) (by omega),
    if_neg (by omega), if_pos (by omega), if_pos hr, Nat.add_sub_cancel_left]

theorem init_m_last (payoff : ℕ → ℕ → ℚ) (m n r : ℕ) (hr : r < m) :
    (get_init_tableau payoff m n).m r (n + m) = 1 := by
  rw [init_m_entry payoff m n r (n + m) (by omega) (by omega),
    if_neg (by omega), if_neg (by omega), if_pos hr]

theorem init_m_obj_dec (payoff : ℕ → ℕ → ℚ) (m n c : ℕ) (hc : c < n) :
    (get_init_tableau payoff m n).m m c = -1 := by
  rw [init_m_entry payoff m n m c (by omega) (by omega), if_pos hc, if_neg (lt_irrefl m)]

theorem init_m_obj_slack (payoff : ℕ → ℕ → ℚ) (m n i : ℕ) (hi : i < m) :
    (get_init_tableau payoff m n).m m (n + i) = 0 := by
  rw [init_m_entry payoff m n m (n + i) (by omega) (by omega),
    if_neg (by omega), if_pos (by omega), if_neg (lt_irrefl m)]

theorem init_m_obj_last (payoff : ℕ → ℕ → ℚ) (m n : ℕ) :
    (get_init_tableau payoff m n).m m (n + m) = 0 := by
  rw [init_m_entry payoff m n m (n + m) (by omega) (by omega),
    if_neg (by omega), if_neg (by omega), if_neg (lt_irrefl m)]

/-! ### Characterization of the pivot-column scan -/

theorem find_pivot_col_upto_spec (t : Tableau) (N : ℕ) :
    (find_pivot_col_upto t N = (0, -1) ∧ ∀ j < N, 0 ≤ t.m (t.rows - 1) j) ∨
    (∃ c : ℕ, c < N ∧ find_pivot_col_upto t N = (t.m (t.rows - 1) c, (c : ℤ)) ∧
      t.m (t.rows - 1) c < 0 ∧
      (∀ j < N, t.m (t.rows - 1) c ≤ t.m (t.rows - 1) j) ∧
      (∀ j < c, t.m (t.rows - 1) c < t.m (t.rows - 1) j)) := by
  induction N with
  | zero => exact Or.inl ⟨rfl, fun j hj => absurd hj (Nat.not_lt_zero j)⟩
  | succ N ih =>
    have hstep : find_pivot_col_upto t (N + 1) =
        (if t.m (t.rows - 1) N < (find_pivot_col_upto t N).1
          then (t.m (t.rows - 1) N, (N : ℤ)) else find_pivot_col_upto t N) := by
      unfold find_pivot_col_upto
      rw [List.range_succ, List.foldl_append, List.foldl_cons, List.foldl_nil]
    rcases ih with ⟨heq, hall⟩ | ⟨c, hcN, heq, hneg, hmin, hfirst⟩
    · rw [heq] at hstep
      by_cases h : t.m (t.rows - 1) N < 0
      · right
        refine ⟨N, Nat.lt_succ_self N, ?_, h, ?_, ?_⟩
        · rw [hstep, if_pos h]
        · intro j hj
          rcases Nat.lt_succ_iff_lt_or_eq.mp hj with hj' | rfl
          · exact le_trans (le_of_lt h) (hall j hj')
          · exact le_refl _
        · intro j hj
          exact lt_of_lt_of_le h (hall j hj)
      · left
        constructor
        · rw [hstep, if_neg (by simpa using h)]
        · intro j hj
          rcases Nat.lt_succ_iff_lt_or_eq.mp hj with hj' | rfl
          · exact hall j hj'
          · exact le_of_not_lt h
    · rw [heq] at hstep
      by_cases h : t.m (t.rows - 1) N < t.m (t.rows - 1) c
      · right
        refine ⟨N, Nat.lt_succ_self N, ?_, lt_trans h hneg, ?_, ?_⟩
        · rw [hstep, if_pos h]
        · intro j hj
          rcases Nat.lt_succ_iff_lt_or_eq.mp hj with hj' | rfl
          · exact le_trans (le_of_lt h) (hmin j hj')
          · exact le_refl _
        · intro j hj
          exact lt_of_lt_of_le h (hmin j hj)
      · right
        refine ⟨c, Nat.lt_succ_of_lt hcN, ?_, hneg, ?_, hfirst⟩
        · rw [hstep, if_neg h]
        · intro j hj
          rcases Nat.lt_succ_iff_lt_or_eq.mp hj with hj' | rfl
          · exact hmin j hj'
          · exact le_of_not_lt h

/-! ### Characterization of the pivot-row scan -/

theorem find_pivot_row_upto_spec (t : Tableau) (pc N : ℕ) :
    (find_pivot_row_upto t pc N = (DBL_MAX, -1) ∧
      ∀ r < N, ¬(0 < t.m r (t.cols - 1) / t.m r pc ∧
        t.m r (t.cols - 1) / t.m r pc < DBL_MAX)) ∨
    (∃ r : ℕ, r < N ∧
      find_pivot_row_upto t pc N = (t.m r (t.cols - 1) / t.m r pc, (r : ℤ)) ∧
      0 < t.m r (t.cols - 1) / t.m r pc ∧
      t.m r (t.cols - 1) / t.m r pc < DBL_MAX ∧
      (∀ r' < N, 0 < t.m r' (t.cols - 1) / t.m r' pc →
        t.m r' (t.cols - 1) / t.m r' pc < DBL_MAX →
        t.m r (t.cols - 1) / t.m r pc ≤ t.m r' (t.cols - 1) / t.m r' pc) ∧
      (∀ r' < r, 0 < t.m r' (t.cols - 1) / t.m r' pc →
        t.m r' (t.cols - 1) / t.m r' pc < DBL_MAX →
        t.m r (t.cols - 1) / t.m r pc < t.m r' (t.cols - 1) / t.m r' pc)) := by
  induction N with
  | zero => exact Or.inl ⟨rfl, fun r hr => absurd hr (Nat.not_lt_zero r)⟩
  | succ N ih =>
    have hstep : find_pivot_row_upto t pc (N + 1) =
        (if 0 < t.m N (t.cols - 1) / t.m N pc ∧
            t.m N (t.cols - 1) / t.m N pc < (find_pivot_row_upto t pc N).1
          then (t.m N (t.cols - 1) / t.m N pc, (N : ℤ)) else find_pivot_row_upto t pc N) := by
      unfold find_pivot_row_upto
      rw [List.range_succ, List.foldl_append, List.foldl_cons, List.foldl_nil]
    rcases ih with ⟨heq, hall⟩ | ⟨r, hrN, heq, hpos, hlt, hmin, hfirst⟩
    · rw [heq] at hstep
      by_cases h : 0 < t.m N (t.cols - 1) / t.m N pc ∧ t.m N (t.cols - 1) / t.m N pc < DBL_MAX
      · right
        refine ⟨N, Nat.lt_succ_self N, ?_, h.1, h.2, ?_, ?_⟩
        · rw [hstep, if_pos h]
        · intro r' hr' h1 h2
          rcases Nat.lt_succ_iff_lt_or_eq.mp hr' with hr'' | rfl
          · exact absurd ⟨h1, h2⟩ (hall r' hr'')
          · exact le_refl _
        · intro r' hr' h1 h2
          exact absurd ⟨h1, h2⟩ (hall r' hr')
      · left
        constructor
        · rw [hstep, if_neg (by simpa using h)]
        · intro r' hr'
          rcases Nat.lt_succ_iff_lt_or_eq.mp hr' with hr'' | rfl
          · exact hall r' hr''
          · exact h
    · rw [heq] at hstep
      by_cases h : 0 < t.m N (t.cols - 1) / t.m N pc ∧
          t.m N (t.cols - 1) / t.m N pc < t.m r (t.cols - 1) / t.m r pc
      · right
        refine ⟨N, Nat.lt_succ_self N, ?_, h.1, lt_trans h.2 hlt, ?_, ?_⟩
        · rw [hstep, if_pos h]
        · intro r' hr' h1 h2
          rcases Nat.lt_succ_iff_lt_or_eq.mp hr' with hr'' | rfl
          · exact le_trans (le_of_lt h.2) (hmin r' hr'' h1 h2)
          · exact le_refl _
        · intro r' hr' h1 h2
          exact lt_of_lt_of_le h.2 (hmin r' hr' h1 h2)
      · right
        refine ⟨r, Nat.lt_succ_of_lt hrN, ?_, hpos, hlt, ?_, hfirst⟩
        · rw [hstep, if_neg h]
        · intro r' hr' h1 h2
          rcases Nat.lt_succ_iff_lt_or_eq.mp hr' with hr'' | rfl
          · exact hmin r' hr'' h1 h2
          · rcases not_and_or.mp h with h' | h'
            · exact absurd h1 h'
            · exact le_of_not_lt h'

/-! ### Structural lemmas about pivot_tableau -/

theorem pivot_tableau_pivot_col (t : Tableau) :
    (pivot_tableau t).pivot_col = (find_pivot_col t).2 := by
  simp only [pivot_tableau]
  split
  · rfl
  · split <;> rfl

theorem pivot_tableau_k (t : Tableau) : (pivot_tableau t).tableau.k = t.k := by
  simp only [pivot_tableau]
  split
  · rfl
  · split <;> rfl

theorem pivot_tableau_sizes (t : Tableau) :
    (pivot_tableau t).tableau.s_size = t.s_size ∧
    (pivot_tableau t).tableau.x_size = t.x_size ∧
    (pivot_tableau t).tableau.rows = t.s_size + 1 ∧
    (pivot_tableau t).tableau.cols = t.x_size + t.s_size + 1 := by
  simp only [pivot_tableau]
  split
  · exact ⟨rfl, rfl, rfl, rfl⟩
  · split <;> exact ⟨rfl, rfl, rfl, rfl⟩

theorem pivot_success_iff (t : Tableau) :
    (pivot_tableau t).success = true ↔
      ¬((find_pivot_col t).2 < 0) ∧
      ¬((find_pivot_row t (find_pivot_col t).2.toNat).2 < 0) := by
  simp only [pivot_tableau]
  by_cases h1 : (find_pivot_col t).2 < 0
  · rw [if_pos h1]
    simp [h1]
  · rw [if_neg h1]
    by_cases h2 : (find_pivot_row t (find_pivot_col t).2.toNat).2 < 0
    · rw [if_pos h2]
      simp [h1, h2]
    · rw [if_neg h2]
      simp [h1, h2]

theorem pivot_row_field (t : Tableau) (h : ¬((find_pivot_col t).2 < 0)) :
    (pivot_tableau t).pivot_row = (find_pivot_row t (find_pivot_col t).2.toNat).2 := by
  simp only [pivot_tableau]
  rw [if_neg h]
  split <;> rfl

theorem pivot_nonneg_of_success (t : Tableau) (h : (pivot_tableau t).success = true) :
    0 ≤ (pivot_tableau t).pivot_col ∧ 0 ≤ (pivot_tableau t).pivot_row := by
  rcases (pivot_success_iff t).mp h with ⟨h1, h2⟩
  rw [pivot_tableau_pivot_col, pivot_row_field t h1]
  exact ⟨le_of_not_lt h1, le_of_not_lt h2⟩

theorem pivot_matrix_of_success (t : Tableau) (h : (pivot_tableau t).success = true)
    (row col : ℕ) (hrow : row < t.rows) (hcol : col < t.cols) :
    (pivot_tableau t).tableau.m row col =
      if row = ((pivot_tableau t).pivot_row).toNat
      then t.m ((pivot_tableau t).pivot_row).toNat col /
        t.m ((pivot_tableau t).pivot_row).toNat ((pivot_tableau t).pivot_col).toNat
      else t.m row col - t.m row ((pivot_tableau t).pivot_col).toNat *
        (t.m ((pivot_tableau t).pivot_row).toNat col /
          t.m ((pivot_tableau t).pivot_row).toNat ((pivot_tableau t).pivot_col).toNat) := by
  rcases (pivot_success_iff t).mp h with ⟨h1, h2⟩
  simp only [pivot_tableau, if_neg h1, if_neg h2]
  rw [if_pos ⟨hrow, hcol⟩]

theorem pivot_success_col_spec (t : Tableau) (h : (pivot_tableau t).success = true) :
    ((pivot_tableau t).pivot_col).toNat < t.cols ∧
    t.m (t.rows - 1) ((pivot_tableau t).pivot_col).toNat < 0 := by
  rcases (pivot_success_iff t).mp h with ⟨h1, _⟩
  rcases find_pivot_col_upto_spec t t.cols with ⟨heq, _⟩ | ⟨c, hc, heq, hneg, _, _⟩
  · exfalso
    apply h1
    show (find_pivot_col_upto t t.cols).2 < 0
    rw [heq]
    norm_num
  · have hcol : (find_pivot_col t).2 = (c : ℤ) := by
      show (find_pivot_col_upto t t.cols).2 = (c : ℤ)
      rw [heq]
    rw [pivot_tableau_pivot_col, hcol]
    simpa using ⟨hc, hneg⟩

theorem pivot_success_row_spec (t : Tableau) (h : (pivot_tableau t).success = true) :
    ((pivot_tableau t).pivot_row).toNat < t.rows ∧
    0 < t.m ((pivot_tableau t).pivot_row).toNat (t.cols - 1) /
      t.m ((pivot_tableau t).pivot_row).toNat ((pivot_tableau t).pivot_col).toNat ∧
    t.m ((pivot_tableau t).pivot_row).toNat (t.cols - 1) /
      t.m ((pivot_tableau t).pivot_row).toNat ((pivot_tableau t).pivot_col).toNat < DBL_MAX := by
  rcases (pivot_success_iff t).mp h with ⟨h1, h2⟩
  rcases find_pivot_row_upto_spec t ((find_pivot_col t).2.toNat) t.rows with
    ⟨heq, _⟩ | ⟨r, hr, heq, hpos, hlt, _, _⟩
  · exfalso
    apply h2
    show (find_pivot_row_upto t ((find_pivot_col t).2.toNat) t.rows).2 < 0
    rw [heq]
    norm_num
  · have hrow : (pivot_tableau t).pivot_row = (r : ℤ) := by
      rw [pivot_row_field t h1]
      show (find_pivot_row_upto t ((find_pivot_col t).2.toNat) t.rows).2 = (r : ℤ)
      rw [heq]
    rw [pivot_tableau_pivot_col, hrow]
    simpa using ⟨hr, hpos, hlt⟩

theorem pivot_obj_last_increases (t : Tableau) (h : (pivot_tableau t).success = true) :
    t.m (t.rows - 1) (t.cols - 1) < (pivot_tableau t).tableau.m (t.rows - 1) (t.cols - 1) := by
  obtain ⟨hpc_lt, hpc_neg⟩ := pivot_success_col_spec t h
  obtain ⟨hpr_lt, hq_pos, _⟩ := pivot_success_row_spec t h
  have hrows : 0 < t.rows := lt_of_le_of_lt (Nat.zero_le _) hpr_lt
  have hcols : 0 < t.cols := lt_of_le_of_lt (Nat.zero_le _) hpc_lt
  rw [pivot_matrix_of_success t h (t.rows - 1) (t.cols - 1) (by omega) (by omega)]
  by_cases hr : t.rows - 1 = ((pivot_tableau t).pivot_row).toNat
  · rw [if_pos hr]
    have hd : t.m ((pivot_tableau t).pivot_row).toNat ((pivot_tableau t).pivot_col).toNat < 0 := by
      rw [← hr]
      exact hpc_neg
    have hnum : t.m ((pivot_tableau t).pivot_row).toNat (t.cols - 1) < 0 := by
      rcases div_pos_iff.mp hq_pos with ⟨_, hd'⟩ | ⟨hn, _⟩
      · exact absurd hd' (not_lt.mpr (le_of_lt hd))
      · exact hn
    rw [hr]
    exact lt_trans hnum hq_pos
  · rw [if_neg hr]
    have hprod : t.m (t.rows - 1) ((pivot_tableau t).pivot_col).toNat *
        (t.m ((pivot_tableau t).pivot_row).toNat (t.cols - 1) /
          t.m ((pivot_tableau t).pivot_row).toNat ((pivot_tableau t).pivot_col).toNat) < 0 :=
      mul_neg_of_neg_of_pos hpc_neg hq_pos
    linarith

/-! ### The iteration loop -/

theorem pivotN_k (j : ℕ) : ∀ (t u : Tableau), pivotN t j = some u → u.k = t.k := by
  induction j with
  | zero =>
    intro t u h
    simp only [pivotN] at h
    rw [← Option.some.inj h]
  | succ j ih =>
    intro t u h
    simp only [pivotN] at h
    by_cases hs : (pivot_tableau t).success
    · rw [if_pos hs] at h
      rw [ih _ _ h, pivot_tableau_k]
    · rw [if_neg hs] at h
      exact absurd h (by simp)

theorem run_pivots_spec (fuel : ℕ) :
    ∀ (t : Tableau) (ord : List ℤ) (cnt : ℕ) (s : SolveResult),
      run_pivots fuel t ord cnt = some s →
      s.order.length = ord.length ∧
      cnt ≤ s.pivot_count ∧
      pivotN t (s.pivot_count - cnt) = some s.tableau ∧
      (pivot_tableau s.tableau).success = false ∧
      (∀ (d : ℤ) (i : ℕ), i < cnt ∨ s.pivot_count ≤ i → s.order.getD i d = ord.getD i d) ∧
      (∀ (d : ℤ) (j : ℕ), cnt + j < s.pivot_count → cnt + j < ord.length →
        ∃ u, pivotN t j = some u ∧ (pivot_tableau u).success = true ∧
          s.order.getD (cnt + j) d = (pivot_tableau u).pivot_row) := by
  induction fuel with
  | zero =>
    intro t ord cnt s h
    simp [run_pivots] at h
  | succ fuel ih =>
    intro t ord cnt s h
    simp only [run_pivots] at h
    by_cases hs : (pivot_tableau t).success
    · rw [if_pos hs] at h
      set ord' := if cnt < ord.length then ord.set cnt (pivot_tableau t).pivot_row else ord
        with hord'
      obtain ⟨hlen, hcnt, hpN, hterm, hpres, hmid⟩ := ih _ _ _ _ h
      have hlen' : ord'.length = ord.length := by
        rw [hord']
        split
        · exact List.length_set ord cnt _
        · rfl
      refine ⟨hlen.trans hlen', by omega, ?_, hterm, ?_, ?_⟩
      · have hj : s.pivot_count - cnt = (s.pivot_count - (cnt + 1)) + 1 := by omega
        rw [hj]
        simp only [pivotN]
        rw [if_pos hs]
        exact hpN
      · intro d i hi
        have hi' : i < cnt + 1 ∨ s.pivot_count ≤ i := by
          rcases hi with h' | h'
          · left; omega
          · right; exact h'
        rw [hpres d i hi', hord']
        have hne : cnt ≠ i := by rcases hi with h' | h' <;> omega
        split
        · exact getD_set_ne ord cnt i _ d hne
        · rfl
      · intro d j hj hjlen
        cases j with
        | zero =>
          refine ⟨t, rfl, hs, ?_⟩
          have hcd : s.order.getD (cnt + 0) d = ord'.getD (cnt + 0) d :=
            hpres d (cnt + 0) (Or.inl (by omega))
          rw [hcd, hord']
          rw [if_pos (by omega : cnt < ord.length)]
          have : cnt + 0 = cnt := by omega
          rw [this]
          exact getD_set_self ord cnt _ d (by omega)
        | succ j =>
          have hj' : (cnt + 1) + j < s.pivot_count := by omega
          have hjlen' : (cnt + 1) + j < ord'.length := by omega
          obtain ⟨u, hu, husucc, hgd⟩ := hmid d j hj' hjlen'
          refine ⟨u, ?_, husucc, ?_⟩
          · simp only [pivotN]
            rw [if_pos hs]
            exact hu
          · have harith : cnt + (j + 1) = (cnt + 1) + j := by omega
            rw [harith]
            exact hgd
    · rw [if_neg hs] at h
      obtain rfl : (⟨t, ord, cnt⟩ : SolveResult) = s := Option.some.inj h
      refine ⟨rfl, le_refl cnt, ?_, by simpa using hs, fun d i _ => rfl, ?_⟩
      · rw [Nat.sub_self]
        rfl
      · intro d j hj _
        have hj2 : cnt + j < cnt := hj
        exact absurd hj2 (by omega)

/-! ### Claim C1 -/

/-- C1, counterexample: the claim puts 0 in the last column of payoff rows
and 1 in the last column of the objective row.  On the payoff matrix `[[5]]`
the built tableau has the two values swapped: entry `[0][2]` is 1 (not 0)
and entry `[1][2]` is 0 (not 1). -/
theorem C1_counterexample :
    ¬((get_init_tableau payoff5 1 1).m 0 2 = 0 ∧ (get_init_tableau payoff5 1 1).m 1 2 = 1) := by
  with_unfolding_all decide

/-- C1, amended: the Initial Tableau Builder produces a tableau with
`rows = m+1`, `cols = n+m+1`, entries `payoff + shift` for `row < m`,
`col < n`, the identity block in columns `n ≤ col < n+m` of the payoff
rows, 1 (not 0) in the last column of every payoff row, and an objective
row holding -1 for `col < n`, 0 for the slack columns, and 0 (not 1) in
the last column. -/
theorem C1_init_tableau_layout (payoff : ℕ → ℕ → ℚ) (m n : ℕ)
    (hm : 1 ≤ m) (hn : 1 ≤ n) :
    (get_init_tableau payoff m n).rows = m + 1 ∧
    (get_init_tableau payoff m n).cols = n + m + 1 ∧
    (∀ r < m, ∀ c < n,
      (get_init_tableau payoff m n).m r c = payoff r c + shift_k payoff m n) ∧
    (∀ r < m, ∀ i < m,
      (get_init_tableau payoff m n).m r (n + i) = if r = i then 1 else 0) ∧
    (∀ r < m, (get_init_tableau payoff m n).m r (n + m) = 1) ∧
    (∀ c < n, (get_init_tableau payoff m n).m m c = -1) ∧
    (∀ i < m, (get_init_tableau payoff m n).m m (n + i) = 0) ∧
    (get_init_tableau payoff m n).m m (n + m) = 0 := by
  refine ⟨rfl, rfl, ?_, ?_, ?_, ?_, ?_, ?_⟩
  · exact fun r hr c hc => init_m_payoff payoff m n r c hr hc
  · exact fun r hr i hi => init_m_slack payoff m n r i hr hi
  · exact fun r hr => init_m_last payoff m n r hr
  · exact fun c hc => init_m_obj_dec payoff m n c hc
  · exact fun i hi => init_m_obj_slack payoff m n i hi
  · exact init_m_obj_last payoff m n

/-- C1, witness: on the payoff matrix `[[5]]` the amended layout theorem
gives 1 in the payoff row's last column and 0 in the objective row's. -/
theorem C1_witness :
    (get_init_tableau payoff5 1 1).m 0 (1 + 1) = 1 ∧
    (get_init_tableau payoff5 1 1).m 1 (1 + 1) = 0 := by
  have h := C1_init_tableau_layout payoff5 1 1 (by decide) (by decide)
  exact ⟨h.2.2.2.2.1 0 (by decide), h.2.2.2.2.2.2.2⟩

/-! ### Claim C2 -/

/-- C2: pivot-column selection scans the objective row (row `rows - 1`)
left to right over all columns and picks the column holding the most
negative entry, ties to the first such column; when no entry is negative
the result is the terminal -1 ("no column") and the pivot fails. -/
theorem C2_pivot_col_selection (t : Tableau) :
    ((pivot_tableau t).pivot_col = (find_pivot_col t).2) ∧
    ((find_pivot_col t).2 = -1 ↔ ∀ j < t.cols, 0 ≤ t.m (t.rows - 1) j) ∧
    (∀ c : ℕ, (find_pivot_col t).2 = (c : ℤ) →
      c < t.cols ∧ t.m (t.rows - 1) c < 0 ∧
      (∀ j < t.cols, t.m (t.rows - 1) c ≤ t.m (t.rows - 1) j) ∧
      (∀ j < c, t.m (t.rows - 1) c < t.m (t.rows - 1) j)) ∧
    ((find_pivot_col t).2 = -1 →
      (pivot_tableau t).success = false ∧ (pivot_tableau t).pivot_col = -1) := by
  refine ⟨pivot_tableau_pivot_col t, ?_, ?_, ?_⟩
  · constructor
    · intro h
      rcases find_pivot_col_upto_spec t t.cols with ⟨_, hall⟩ | ⟨c, _, heq, _, _, _⟩
      · exact hall
      · exfalso
        have h2 : (find_pivot_col t).2 = (c : ℤ) := by
          show (find_pivot_col_upto t t.cols).2 = (c : ℤ)
          rw [heq]
        rw [h] at h2
        omega
    · intro hall
      rcases find_pivot_col_upto_spec t t.cols with ⟨heq, _⟩ | ⟨c, hc, _, hneg, _, _⟩
      · show (find_pivot_col_upto t t.cols).2 = -1
        rw [heq]
      · exact absurd (hall c hc) (not_le.mpr hneg)
  · intro c hc
    rcases find_pivot_col_upto_spec t t.cols with ⟨heq, _⟩ | ⟨c₀, hc₀, heq, hneg, hmin, hfirst⟩
    · exfalso
      have h2 : (find_pivot_col t).2 = -1 := by
        show (find_pivot_col_upto t t.cols).2 = -1
        rw [heq]
      rw [hc] at h2
      omega
    · have h2 : (find_pivot_col t).2 = (c₀ : ℤ) := by
        show (find_pivot_col_upto t t.cols).2 = (c₀ : ℤ)
        rw [heq]
      rw [hc] at h2
      have hcc : c = c₀ := by omega
      subst hcc
      exact ⟨hc₀, hneg, hmin, hfirst⟩
  · intro h
    have hlt : (find_pivot_col t).2 < 0 := by omega
    constructor
    · simp only [pivot_tableau]
      rw [if_pos hlt]
    · rw [pivot_tableau_pivot_col, h]

/-- C2, witness: the characterization applied to a concrete tableau; on
`tab_no_row` the selected pivot column is column 0. -/
theorem C2_witness :
    (pivot_tableau tab_no_row).pivot_col = (find_pivot_col tab_no_row).2 :=
  (C2_pivot_col_selection tab_no_row).1

/-! ### Claim C3 -/

/-- C3, counterexample: a tableau whose row 0 has the strictly positive
quotient `DBL_MAX / 1` for the selected column 0, yet row selection
returns the terminal -1 ("no row") and the pivot fails, because the scan
starts its minimum at the sentinel `DBL_MAX` and only accepts values
strictly below it.  The claim says a row with a strictly positive quotient
must be selected. -/
theorem C3_counterexample :
    0 < tab_huge.m 0 2 / tab_huge.m 0 0 ∧
    (pivot_tableau tab_huge).pivot_col = 0 ∧
    (pivot_tableau tab_huge).pivot_row = -1 ∧
    (pivot_tableau tab_huge).success = false := by
  with_unfolding_all decide

/-- C3, amended: pivot-row selection computes
`matrix[r][cols-1] / matrix[r][pivotCol]` for every row (objective row
included), considers only rows whose quotient is strictly positive and
strictly below `DBL_MAX` (the sentinel the running minimum starts at),
selects the minimum among them with ties to the first qualifying row, and
returns the terminal -1 ("no row", failed pivot) when no row qualifies. -/
theorem C3_pivot_row_selection (t : Tableau) (pc : ℕ) :
    ((find_pivot_row t pc).2 = -1 ↔
      ∀ r < t.rows, ¬(0 < t.m r (t.cols - 1) / t.m r pc ∧
        t.m r (t.cols - 1) / t.m r pc < DBL_MAX)) ∧
    (∀ r : ℕ, (find_pivot_row t pc).2 = (r : ℤ) →
      r < t.rows ∧ 0 < t.m r (t.cols - 1) / t.m r pc ∧
      t.m r (t.cols - 1) / t.m r pc < DBL_MAX ∧
      (∀ r' < t.rows, 0 < t.m r' (t.cols - 1) / t.m r' pc →
        t.m r' (t.cols - 1) / t.m r' pc < DBL_MAX →
        t.m r (t.cols - 1) / t.m r pc ≤ t.m r' (t.cols - 1) / t.m r' pc) ∧
      (∀ r' < r, 0 < t.m r' (t.cols - 1) / t.m r' pc →
        t.m r' (t.cols - 1) / t.m r' pc < DBL_MAX →
        t.m r (t.cols - 1) / t.m r pc < t.m r' (t.cols - 1) / t.m r' pc)) ∧
    (¬((find_pivot_col t).2 < 0) →
      (pivot_tableau t).pivot_row = (find_pivot_row t (find_pivot_col t).2.toNat).2 ∧
      ((find_pivot_row t (find_pivot_col t).2.toNat).2 = -1 →
        (pivot_tableau t).success = false)) := by
  refine ⟨?_, ?_, ?_⟩
  · constructor
    · intro h
      rcases find_pivot_row_upto_spec t pc t.rows with ⟨_, hall⟩ | ⟨r, _, heq, _, _, _, _⟩
      · exact hall
      · exfalso
        have h2 : (find_pivot_row t pc).2 = (r : ℤ) := by
          show (find_pivot_row_upto t pc t.rows).2 = (r : ℤ)
          rw [heq]
        rw [h] at h2
        omega
    · intro hall
      rcases find_pivot_row_upto_spec t pc t.rows with ⟨heq, _⟩ | ⟨r, hr, _, hpos, hlt, _, _⟩
      · show (find_pivot_row_upto t pc t.rows).2 = -1
        rw [heq]
      · exact absurd ⟨hpos, hlt⟩ (hall r hr)
  · intro r hr
    rcases find_pivot_row_upto_spec t pc t.rows with ⟨heq, _⟩ | ⟨r₀, hr₀, heq, hpos, hlt, hmin, hfirst⟩
    · exfalso
      have h2 : (find_pivot_row t pc).2 = -1 := by
        show (find_pivot_row_upto t pc t.rows).2 = -1
        rw [heq]
      rw [hr] at h2
      omega
    · have h2 : (find_pivot_row t pc).2 = (r₀ : ℤ) := by
        show (find_pivot_row_upto t pc t.rows).2 = (r₀ : ℤ)
        rw [heq]
      rw [hr] at h2
      have hrr : r = r₀ := by omega
      subst hrr
      exact ⟨hr₀, hpos, hlt, hmin, hfirst⟩
  · intro hpc
    refine ⟨pivot_row_field t hpc, ?_⟩
    intro h
    have hlt : (find_pivot_row t (find_pivot_col t).2.toNat).2 < 0 := by omega
    simp only [pivot_tableau]
    rw [if_neg hpc, if_pos hlt]

/-- C3, witness: the characterization applied to `tab_no_row`, where the
scan returns -1, so row 0 cannot have a qualifying quotient. -/
theorem C3_witness :
    ¬(0 < tab_no_row.m 0 (tab_no_row.cols - 1) / tab_no_row.m 0 0 ∧
      tab_no_row.m 0 (tab_no_row.cols - 1) / tab_no_row.m 0 0 < DBL_MAX) :=
  (C3_pivot_row_selection tab_no_row 0).1.mp (by with_unfolding_all decide) 0 (by decide)

/-! ### Claim C4 -/

/-- C4: on a successful pivot the successor tableau holds the old pivot
row divided entrywise by the pivot value, every other row `r` holds
`old[r][c] - old[r][pivotCol] * newPivotRow[c]` computed from the
already-updated pivot row, and the shift `k` is copied unchanged.  The
input tableau is a separate value the construction never writes to (the
model is a pure function of it, matching the fresh allocation in C). -/
theorem C4_pivot_arithmetic (t : Tableau) (h : (pivot_tableau t).success = true) :
    (∀ col < t.cols,
      (pivot_tableau t).tableau.m ((pivot_tableau t).pivot_row).toNat col =
        t.m ((pivot_tableau t).pivot_row).toNat col /
          t.m ((pivot_tableau t).pivot_row).toNat ((pivot_tableau t).pivot_col).toNat) ∧
    (∀ row < t.rows, row ≠ ((pivot_tableau t).pivot_row).toNat → ∀ col < t.cols,
      (pivot_tableau t).tableau.m row col =
        t.m row col - t.m row ((pivot_tableau t).pivot_col).toNat *
          (pivot_tableau t).tableau.m ((pivot_tableau t).pivot_row).toNat col) ∧
    (pivot_tableau t).tableau.k = t.k := by
  have hpr := (pivot_success_row_spec t h).1
  refine ⟨?_, ?_, pivot_tableau_k t⟩
  · intro col hcol
    rw [pivot_matrix_of_success t h _ col hpr hcol, if_pos rfl]
  · intro row hrow hne col hcol
    rw [pivot_matrix_of_success t h row col hrow hcol, if_neg hne,
      pivot_matrix_of_success t h _ col hpr hcol, if_pos rfl]

/-- C4, witness: on the initial tableau of `[[5]]` the new pivot row entry
at column 0 is the old entry divided by the pivot value. -/
theorem C4_witness :
    (pivot_tableau (get_init_tableau payoff5 1 1)).tableau.m
        ((pivot_tableau (get_init_tableau payoff5 1 1)).pivot_row).toNat 0 =
      (get_init_tableau payoff5 1 1).m
          ((pivot_tableau (get_init_tableau payoff5 1 1)).pivot_row).toNat 0 /
        (get_init_tableau payoff5 1 1).m
          ((pivot_tableau (get_init_tableau payoff5 1 1)).pivot_row).toNat
          ((pivot_tableau (get_init_tableau payoff5 1 1)).pivot_col).toNat :=
  (C4_pivot_arithmetic (get_init_tableau payoff5 1 1)
    (by with_unfolding_all decide)).1 0 (by decide)

/-! ### Claim C6 -/

theorem truncToInt_intCast (z : ℤ) : truncToInt (z : ℚ) = z := by
  unfold truncToInt
  split
  · rw [← Int.cast_neg, Int.floor_intCast, neg_neg]
  · rw [Int.floor_intCast]

/-- C6, counterexample: on the 1 × 1 payoff matrix whose only entry (hence
minimum entry) is 1/2, the claim asks for shift `max(0, 1 - 1/2) = 1/2`,
but the tableau stores its shift in an `int` field, so the stored shift is
the truncation 0. -/
theorem C6_counterexample :
    ((get_init_tableau payoff_frac 1 1).k : ℚ) ≠ max 0 (1 - payoff_frac 0 0) := by
  with_unfolding_all decide

/-- C6, amended: for every payoff matrix of finite doubles (every entry at
most `DBL_MAX`) with `m, n ≥ 1`, the scanned minimum is the true minimum
(it is a lower bound and it is attained), the stored shift is the C `int`
truncation of `max(0, 1 - p_min)` — equal to `max(0, 1 - p_min)` itself
whenever all payoff entries are integers, as every entry this program
parses is — and every payoff-derived entry of the built tableau is ≥ 1
(the populated entries use the untruncated `double` shift). -/
theorem C6_shift_and_entries (payoff : ℕ → ℕ → ℚ) (m n : ℕ)
    (hm : 1 ≤ m) (hn : 1 ≤ n)
    (hbound : ∀ r < m, ∀ c < n, payoff r c ≤ DBL_MAX) :
    (∀ r < m, ∀ c < n, min_payoff payoff m n ≤ payoff r c) ∧
    (∃ r < m, ∃ c < n, min_payoff payoff m n = payoff r c) ∧
    (get_init_tableau payoff m n).k = truncToInt (max 0 (1 - min_payoff payoff m n)) ∧
    ((∀ r < m, ∀ c < n, ∃ z : ℤ, payoff r c = (z : ℚ)) →
      ((get_init_tableau payoff m n).k : ℚ) = max 0 (1 - min_payoff payoff m n)) ∧
    (∀ r < m, ∀ c < n, 1 ≤ (get_init_tableau payoff m n).m r c) := by
  refine ⟨fun r hr c hc => min_payoff_le payoff m n r c hr hc,
    min_payoff_attained payoff m n hm hn hbound, ?_, ?_, ?_⟩
  · show truncToInt (shift_k payoff m n) = _
    rw [shift_k_eq_max]
  · intro hint
    obtain ⟨r₀, hr₀, c₀, hc₀, hmin⟩ := min_payoff_attained payoff m n hm hn hbound
    obtain ⟨z, hz⟩ := hint r₀ hr₀ c₀ hc₀
    have hminz : min_payoff payoff m n = (z : ℚ) := by rw [hmin, hz]
    show (truncToInt (shift_k payoff m n) : ℚ) = _
    unfold shift_k
    rw [hminz]
    by_cases hlt : (z : ℚ) < 1
    · rw [if_pos hlt]
      have hcast : (1 : ℚ) - (z : ℚ) = ((1 - z : ℤ) : ℚ) := by push_cast; ring
      rw [hcast, truncToInt_intCast, max_eq_right (by push_cast; linarith)]
    · rw [if_neg hlt, max_eq_left (by have := not_lt.mp hlt; linarith)]
      show (truncToInt ((0 : ℤ) : ℚ) : ℚ) = 0
      rw [truncToInt_intCast]
      rfl
  · intro r hr c hc
    rw [init_m_payoff payoff m n r c hr hc]
    exact entry_plus_shift_ge_one payoff m n r c hr hc

/-- C6, witness: on the payoff matrix `[[5]]` the stored shift is the
truncation of `max(0, 1 - 5)`, and the only tableau payoff entry is ≥ 1. -/
theorem C6_witness :
    (get_init_tableau payoff5 1 1).k =
      truncToInt (max 0 (1 - min_payoff payoff5 1 1)) ∧
    1 ≤ (get_init_tableau payoff5 1 1).m 0 0 := by
  have h := C6_shift_and_entries payoff5 1 1 (by decide) (by decide)
    (by with_unfolding_all decide)
  exact ⟨h.2.2.1, h.2.2.2.2 0 (by decide) 0 (by decide)⟩

/-! ### Claim C7 -/

/-- C7, failing input: on the spec's own dominant-strategy scenario
`[[3, 0], [0, 0]]` the solve terminates through the optimality test, but
the two recorded pivot rows are both row 0 (the second minimum-quotient
scan ends in a tie broken to the first row, which is the same row again),
so the returned player-2 strategy is `(1, 1)`: its sum is 2, not 1.  The
claim (and spec §8's scenario) requires both strategies to sum to 1. -/
theorem C7_failing_input :
    simplex_main payoff_dominant 2 2 5 = some ⟨0, [1, 0], [1, 1]⟩ ∧
    (simplex_main payoff_dominant 2 2 5).map (fun sol => sol.p2_strategy.sum) = some 2 := by
  with_unfolding_all decide

/-! ### Claim C8 -/

/-- C8, counterexample: on matching pennies (non-degenerate shift 2 and
payoffs), the first pivot succeeds and the objective row's last-column
entry moves from 0 to 1/3 — it strictly increases, not decreases as the
claim states. -/
theorem C8_counterexample :
    (pivot_tableau (get_init_tableau payoff_pennies 2 2)).success = true ∧
    (get_init_tableau payoff_pennies 2 2).m 2 4 = 0 ∧
    (pivot_tableau (get_init_tableau payoff_pennies 2 2)).tableau.m 2 4 = 1 / 3 ∧
    ¬((pivot_tableau (get_init_tableau payoff_pennies 2 2)).tableau.m 2 4 <
      (get_init_tableau payoff_pennies 2 2).m 2 4) := by
  with_unfolding_all decide

/-- C8, amended: after every successful pivot the successor tableau's
objective-row last-column entry is strictly greater than the predecessor
tableau's, with no non-degeneracy hypothesis needed. -/
theorem C8_obj_last_strictly_increases (t : Tableau)
    (h : (pivot_tableau t).success = true) :
    t.m (t.rows - 1) (t.cols - 1) <
      (pivot_tableau t).tableau.m (t.rows - 1) (t.cols - 1) :=
  pivot_obj_last_increases t h

/-- C8, witness: the strict increase at the first pivot of matching
pennies. -/
theorem C8_witness :
    (get_init_tableau payoff_pennies 2 2).m
        ((get_init_tableau payoff_pennies 2 2).rows - 1)
        ((get_init_tableau payoff_pennies 2 2).cols - 1) <
      (pivot_tableau (get_init_tableau payoff_pennies 2 2)).tableau.m
        ((get_init_tableau payoff_pennies 2 2).rows - 1)
        ((get_init_tableau payoff_pennies 2 2).cols - 1) :=
  C8_obj_last_strictly_increases (get_init_tableau payoff_pennies 2 2)
    (by with_unfolding_all decide)

/-! ### Claim C9 -/

/-- C9, counterexample: on `tab_no_row` the chosen pivot column is 0 and
row selection finds no qualifying quotient ("no row"), yet the solve does
not end as a hard failure: the loop returns its state like a normal
termination and the extraction still produces a game value (1) and both
strategies.  The claim says no game value or strategies are produced. -/
theorem C9_counterexample :
    (pivot_tableau tab_no_row).success = false ∧
    (pivot_tableau tab_no_row).pivot_col = 0 ∧
    (pivot_tableau tab_no_row).pivot_row = -1 ∧
    (run_pivots 1 tab_no_row (List.replicate 1 (-1)) 0).map
      (fun s => extract_solution s.tableau s.order 1 1) = some ⟨1, [0], [0]⟩ := by
  with_unfolding_all decide

/-- C9, amended: when pivot-row selection finds no positive (sub-DBL_MAX)
quotient for a chosen column, the result is field-distinguishable from the
"no column" outcome — `pivot_col ≥ 0` with `pivot_row = -1`, while "no
column" has `pivot_col = -1` — but the driver does not treat it as a
distinct hard failure: the loop ends exactly as on optimal termination,
handing the current state to the extraction code. -/
theorem C9_no_row_not_distinct_failure (t : Tableau)
    (hcol : 0 ≤ (pivot_tableau t).pivot_col)
    (hfail : (pivot_tableau t).success = false) :
    (pivot_tableau t).pivot_row = -1 ∧
    (∀ fuel ord cnt, run_pivots (fuel + 1) t ord cnt = some ⟨t, ord, cnt⟩) := by
  have h1 : ¬((find_pivot_col t).2 < 0) := by
    rw [pivot_tableau_pivot_col] at hcol
    omega
  have h2 : (find_pivot_row t (find_pivot_col t).2.toNat).2 < 0 := by
    by_contra h2
    have hs : (pivot_tableau t).success = true := (pivot_success_iff t).mpr ⟨h1, h2⟩
    rw [hfail] at hs
    exact Bool.noConfusion hs
  constructor
  · rw [pivot_row_field t h1]
    rcases find_pivot_row_upto_spec t (find_pivot_col t).2.toNat t.rows with
      ⟨heq, _⟩ | ⟨r, _, heq, _, _, _, _⟩
    · show (find_pivot_row_upto t (find_pivot_col t).2.toNat t.rows).2 = -1
      rw [heq]
    · exfalso
      have hr : (find_pivot_row t (find_pivot_col t).2.toNat).2 = (r : ℤ) := by
        show (find_pivot_row_upto t (find_pivot_col t).2.toNat t.rows).2 = (r : ℤ)
        rw [heq]
      omega
  · intro fuel ord cnt
    simp only [run_pivots]
    rw [hfail]
    simp

/-- C9, witness: the amended statement at `tab_no_row`. -/
theorem C9_witness :
    (pivot_tableau tab_no_row).pivot_row = -1 ∧
    run_pivots 1 tab_no_row (List.replicate 1 (-1)) 0 =
      some ⟨tab_no_row, List.replicate 1 (-1), 0⟩ := by
  have h := C9_no_row_not_distinct_failure tab_no_row
    (by with_unfolding_all decide) (by with_unfolding_all decide)
  exact ⟨h.1, h.2 0 (List.replicate 1 (-1)) 0⟩

/-! ### Claim C10 -/

theorem one_lt_DBL_MAX : (1 : ℚ) < DBL_MAX := by decide

/-- C10: on the initial tableau of any payoff matrix with `m, n ≥ 1` the
first pivot always succeeds: every decision column of the objective row
holds -1, so column 0 is selected; every payoff row's quotient is
`1 / (payoff + shift) > 0` (and below the `DBL_MAX` sentinel, since the
shifted entry is ≥ 1), so a pivot row is found; hence neither terminal
branch is reachable at Tableau₀ and whenever the loop terminates the
first recorded pivot-row entry `order[0]` is defined (non-negative). -/
theorem C10_first_pivot_succeeds (payoff : ℕ → ℕ → ℚ) (m n : ℕ)
    (hm : 1 ≤ m) (hn : 1 ≤ n) :
    (pivot_tableau (get_init_tableau payoff m n)).success = true ∧
    (pivot_tableau (get_init_tableau payoff m n)).pivot_col = 0 ∧
    0 ≤ (pivot_tableau (get_init_tableau payoff m n)).pivot_row ∧
    (∀ r < m,
      (get_init_tableau payoff m n).m r ((get_init_tableau payoff m n).cols - 1) /
          (get_init_tableau payoff m n).m r 0 =
        1 / (payoff r 0 + shift_k payoff m n) ∧
      0 < 1 / (payoff r 0 + shift_k payoff m n)) ∧
    (∀ fuel s,
      run_pivots fuel (get_init_tableau payoff m n) (List.replicate n (-1)) 0 = some s →
      1 ≤ s.pivot_count ∧ 0 ≤ s.order.getD 0 (-1)) := by
  set t0 := get_init_tableau payoff m n with ht0
  have hpc : (find_pivot_col t0).2 = 0 := by
    rcases find_pivot_col_upto_spec t0 t0.cols with ⟨heq, hall⟩ | ⟨c, hc, heq, hneg, hmin, hfirst⟩
    · exfalso
      have hcpos : (0 : ℕ) < t0.cols := by
        show 0 < n + m + 1
        omega
      have hv : t0.m (t0.rows - 1) 0 = -1 := init_m_obj_dec payoff m n 0 hn
      have := hall 0 hcpos
      rw [hv] at this
      linarith
    · have hneg' : t0.m m c < 0 := hneg
      have hcc : c < n + m + 1 := hc
      have hcn : c < n := by
        by_contra hcn
        push_neg at hcn
        rcases Nat.lt_or_ge c (n + m) with hcase | hcase
        · have hi : c - n < m := by omega
          have hv : t0.m m (n + (c - n)) = 0 := init_m_obj_slack payoff m n (c - n) hi
          have hceq : n + (c - n) = c := by omega
          rw [hceq] at hv
          linarith
        · have hce : c = n + m := by omega
          have hv : t0.m m (n + m) = 0 := init_m_obj_last payoff m n
          rw [← hce] at hv
          linarith
      have hc0 : c = 0 := by
        by_contra hc0
        have h0c : 0 < c := Nat.pos_of_ne_zero hc0
        have hlt : t0.m (t0.rows - 1) c < t0.m (t0.rows - 1) 0 := hfirst 0 h0c
        have hv0 : t0.m m 0 = -1 := init_m_obj_dec payoff m n 0 hn
        have hvc : t0.m m c = -1 := init_m_obj_dec payoff m n c hcn
        have hlt' : t0.m m c < t0.m m 0 := hlt
        rw [hv0, hvc] at hlt'
        linarith
      subst hc0
      show (find_pivot_col_upto t0 t0.cols).2 = 0
      rw [heq]
      simp
  have hquot : ∀ r < m,
      t0.m r (t0.cols - 1) / t0.m r 0 = 1 / (payoff r 0 + shift_k payoff m n) ∧
      0 < 1 / (payoff r 0 + shift_k payoff m n) := by
    intro r hr
    have hlast : t0.m r (t0.cols - 1) = 1 := init_m_last payoff m n r hr
    have hcol0 : t0.m r 0 = payoff r 0 + shift_k payoff m n :=
      init_m_payoff payoff m n r 0 hr hn
    have hge := entry_plus_shift_ge_one payoff m n r 0 hr hn
    constructor
    · rw [hlast, hcol0]
    · exact one_div_pos.mpr (by linarith)
  have hpcn : (find_pivot_col t0).2.toNat = 0 := by rw [hpc]; rfl
  have hrow : ¬((find_pivot_row t0 (find_pivot_col t0).2.toNat).2 < 0) := by
    rw [hpcn]
    rcases find_pivot_row_upto_spec t0 0 t0.rows with ⟨heq2, hall2⟩ | ⟨r, hrN, heq2, _, _, _, _⟩
    · exfalso
      have h00 : (0 : ℕ) < t0.rows := by
        show 0 < m + 1
        omega
      obtain ⟨hq0, hq0pos⟩ := hquot 0 hm
      have hge := entry_plus_shift_ge_one payoff m n 0 0 hm hn
      apply hall2 0 h00
      constructor
      · rw [hq0]
        exact hq0pos
      · rw [hq0]
        have hle1 : 1 / (payoff 0 0 + shift_k payoff m n) ≤ 1 :=
          (div_le_one (by linarith)).mpr (by linarith)
        exact lt_of_le_of_lt hle1 one_lt_DBL_MAX
    · show ¬((find_pivot_row_upto t0 0 t0.rows).2 < 0)
      rw [heq2]
      omega
  have hsucc : (pivot_tableau t0).success = true :=
    (pivot_success_iff t0).mpr ⟨by rw [hpc]; omega, hrow⟩
  refine ⟨hsucc, ?_, (pivot_nonneg_of_success t0 hsucc).2, hquot, ?_⟩
  · rw [pivot_tableau_pivot_col, hpc]
  · intro fuel s h
    cases fuel with
    | zero => exact absurd h (by simp [run_pivots])
    | succ fuel =>
      simp only [run_pivots] at h
      rw [if_pos hsucc] at h
      obtain ⟨hlen, hcnt, _, _, hpres, _⟩ := run_pivots_spec fuel _ _ _ _ h
      constructor
      · omega
      · have h0 := hpres (-1) 0 (Or.inl (by omega))
        rw [h0]
        rw [if_pos (by simp only [List.length_replicate]; omega :
          (0 : ℕ) < (List.replicate n (-1 : ℤ)).length)]
        rw [getD_set_self _ 0 _ (-1) (by simp only [List.length_replicate]; omega)]
        exact (pivot_nonneg_of_success t0 hsucc).2

/-- C10, witness: on the payoff matrix `[[5]]` the first pivot succeeds
and selects column 0. -/
theorem C10_witness :
    (pivot_tableau (get_init_tableau payoff5 1 1)).success = true ∧
    (pivot_tableau (get_init_tableau payoff5 1 1)).pivot_col = 0 := by
  have h := C10_first_pivot_succeeds payoff5 1 1 (by decide) (by decide)
  exact ⟨h.1, h.2.1⟩

/-! ### Claim C5 -/

/-- C5: whenever the solve loop terminates, the extraction returns
`gameValue = 1/v - shift` with `v` the objective row's last-column entry
of the terminal tableau and `shift` the tableau's stored shift (carried
unchanged from Tableau₀); `strategy1[i] = matrix[rows-1][decisionCount+i] / v`
for `i < m`; and `strategy2[i] = matrix[pivotRowHistory[i]][cols-1] / v`
when at least `i+1` pivots occurred (the recorded entry being exactly the
row of the i-th successful pivot, a non-negative index) and 0 otherwise. -/
theorem C5_solution_extraction (payoff : ℕ → ℕ → ℚ) (m n fuel : ℕ) :
    match run_pivots fuel (get_init_tableau payoff m n) (List.replicate n (-1)) 0 with
    | none => True
    | some s =>
      (extract_solution s.tableau s.order m n).value =
          1 / s.tableau.m (s.tableau.rows - 1) (s.tableau.cols - 1) - (s.tableau.k : ℚ) ∧
      s.tableau.k = (get_init_tableau payoff m n).k ∧
      (extract_solution s.tableau s.order m n).p1_strategy.length = m ∧
      (extract_solution s.tableau s.order m n).p2_strategy.length = n ∧
      (∀ i < m, (extract_solution s.tableau s.order m n).p1_strategy.getD i 0 =
        s.tableau.m (s.tableau.rows - 1) (s.tableau.x_size + i) /
          s.tableau.m (s.tableau.rows - 1) (s.tableau.cols - 1)) ∧
      (∀ i < n, i < s.pivot_count →
        ∃ u, pivotN (get_init_tableau payoff m n) i = some u ∧
          (pivot_tableau u).success = true ∧
          0 ≤ (pivot_tableau u).pivot_row ∧
          (extract_solution s.tableau s.order m n).p2_strategy.getD i 0 =
            s.tableau.m ((pivot_tableau u).pivot_row).toNat (s.tableau.cols - 1) /
              s.tableau.m (s.tableau.rows - 1) (s.tableau.cols - 1)) ∧
      (∀ i < n, s.pivot_count ≤ i →
        (extract_solution s.tableau s.order m n).p2_strategy.getD i 0 = 0) := by
  split
  · trivial
  · rename_i s heq
    obtain ⟨hlen, hcnt0, hpN, hterm, hpres, hmid⟩ := run_pivots_spec fuel _ _ _ _ heq
    have hlenn : s.order.length = n := by
      rw [hlen, List.length_replicate]
    have hp1 : (extract_solution s.tableau s.order m n).p1_strategy =
        (List.range m).map (fun index =>
          s.tableau.m (s.tableau.rows - 1) (s.tableau.x_size + index) /
            s.tableau.m (s.tableau.rows - 1) (s.tableau.cols - 1)) := rfl
    have hp2 : (extract_solution s.tableau s.order m n).p2_strategy =
        (List.range n).map (fun index =>
          if 0 ≤ s.order.getD index (-1)
          then s.tableau.m (s.order.getD index (-1)).toNat (s.tableau.cols - 1) /
            s.tableau.m (s.tableau.rows - 1) (s.tableau.cols - 1)
          else 0) := rfl
    refine ⟨rfl, pivotN_k _ _ _ (by simpa using hpN), ?_, ?_, ?_, ?_, ?_⟩
    · rw [hp1, List.length_map, List.length_range]
    · rw [hp2, List.length_map, List.length_range]
    · intro i hi
      rw [hp1, getD_map_range _ m i 0 hi]
    · intro i hin hicnt
      obtain ⟨u, hu, husucc, hgd⟩ := hmid (-1) i (by omega)
        (by rw [List.length_replicate]; omega)
      rw [Nat.zero_add] at hgd
      have hprn := (pivot_nonneg_of_success u husucc).2
      refine ⟨u, by simpa using hu, husucc, hprn, ?_⟩
      rw [hp2, getD_map_range _ n i 0 hin, hgd, if_pos hprn]
    · intro i hin hcnt
      have h0 := hpres (-1) i (Or.inr hcnt)
      have hrep : (List.replicate n (-1 : ℤ)).getD i (-1) = -1 :=
        getD_replicate_lt n i (-1) (-1) hin
      rw [hp2, getD_map_range _ n i 0 hin, h0, hrep, if_neg (by norm_num)]

end Simplex
